import Mathlib

/-!
Verification of the open-claude-router translation core.

This development shallowly embeds the Python sources (src/models.py,
src/transform.py, src/stream.py) in Lean and proves or refutes the
specification claims about them.  JSON values are modelled by the
inductive type Jv; Python dictionary fields that may be absent are
modelled with Option; Python truthiness is modelled explicitly.
-/

/-- A JSON value, as passed around by the Python code.  Numbers are
modelled as integers (no claim depends on floats). -/
inductive Jv where
  | null : Jv
  | bool : Bool → Jv
  | num : Int → Jv
  | str : String → Jv
  | arr : List Jv → Jv
  | obj : List (String × Jv) → Jv
deriving Repr

/-- Python truthiness of a JSON value: None, False, 0, empty string,
empty list and empty dict are falsy. -/
def pyTruthy : Jv → Bool
  | .null => false
  | .bool b => b
  | .num n => n != 0
  | .str s => s != ""
  | .arr xs => !xs.isEmpty
  | .obj fs => !fs.isEmpty

mutual

/-- Structural equality of JSON values (the Python == used on opaque
passthrough values). -/
def jvBeq : Jv → Jv → Bool
  | .null, .null => true
  | .bool a, .bool b => a == b
  | .num a, .num b => a == b
  | .str a, .str b => a == b
  | .arr a, .arr b => jvBeqList a b
  | .obj a, .obj b => jvBeqObj a b
  | _, _ => false

/-- jvBeq on lists of values. -/
def jvBeqList : List Jv → List Jv → Bool
  | [], [] => true
  | a :: as, b :: bs => jvBeq a b && jvBeqList as bs
  | _, _ => false

/-- jvBeq on object field lists. -/
def jvBeqObj : List (String × Jv) → List (String × Jv) → Bool
  | [], [] => true
  | a :: as, b :: bs => (a.1 == b.1 && jvBeq a.2 b.2) && jvBeqObj as bs
  | _, _ => false

end

instance : BEq Jv := ⟨jvBeq⟩

mutual

/-- json.dumps, restricted to what the claims need (string escaping is
not modelled; no claim depends on it). -/
def jvDumps : Jv → String
  | .null => "null"
  | .bool true => "true"
  | .bool false => "false"
  | .num n => toString n
  | .str s => "\"" ++ s ++ "\""
  | .arr xs => "[" ++ String.intercalate ", " (jvDumpsList xs) ++ "]"
  | .obj fs => "\x7b" ++ String.intercalate ", " (jvDumpsObj fs) ++ "\x7d"

/-- jvDumps mapped over a list of values. -/
def jvDumpsList : List Jv → List String
  | [] => []
  | x :: xs => jvDumps x :: jvDumpsList xs

/-- jvDumps mapped over the fields of an object. -/
def jvDumpsObj : List (String × Jv) → List String
  | [] => []
  | f :: fs => ("\"" ++ f.1 ++ "\": " ++ jvDumps f.2) :: jvDumpsObj fs

end

/-- Boolean list-inclusion check used to model Python str.startswith. -/
def listIsPre : List Char → List Char → Bool
  | [], _ => true
  | _ :: _, [] => false
  | a :: as, b :: bs => a == b && listIsPre as bs

/-- Boolean substring check on character lists, used to model the
Python operator (sub in s). -/
def listIsSub (n : List Char) : List Char → Bool
  | [] => n.isEmpty
  | c :: t => listIsPre n (c :: t) || listIsSub n t

/-- Python: sub in s (substring containment). -/
def pyIn (sub s : String) : Bool := listIsSub sub.toList s.toList

/-- Python: s.startswith(pre). -/
def pyStartsWith (s pre : String) : Bool := listIsPre pre.toList s.toList

/-- ASCII lowering of one character, as Python str.lower does on the
ASCII range that the model ids use. -/
def pyCharLower (c : Char) : Char :=
  if 'A' ≤ c && c ≤ 'Z' then Char.ofNat (c.toNat + 32) else c

/-- Python: s.lower(). -/
def pyLower (s : String) : String := String.mk (s.toList.map pyCharLower)

/-- Python: s.strip(). -/
def pyStrip (s : String) : String :=
  String.mk (((s.toList.dropWhile Char.isWhitespace).reverse.dropWhile Char.isWhitespace).reverse)

/-! ## models.py -/

/-- One entry of the fetched OpenRouter model list; dict.get defaults
from the source are folded into the field defaults. -/
structure MEntry where
  id : String := ""
  created : Int := 0
  supported_parameters : List String := []
deriving Repr, DecidableEq

/-- The fetched model-list JSON (its data field). -/
structure MData where
  data : List MEntry := []
deriving Repr, DecidableEq

def CLAUDE_TIERS : List String := ["haiku", "sonnet", "opus"]

/-- models.py _extract_claude_tier: first tier that is a substring of
the lowercased model id. -/
def extract_claude_tier (model_id : String) : Option String :=
  CLAUDE_TIERS.find? (fun tier => pyIn tier (pyLower model_id))

/-- The regex :(free|beta|extended) matches exactly when one of these
three substrings occurs. -/
def excludedVariant (model_id : String) : Bool :=
  pyIn ":free" model_id || pyIn ":beta" model_id || pyIn ":extended" model_id

/-- The candidate (created, id) pairs accumulated for one tier by the
loop in _build_claude_aliases, in list order. -/
def tierCandidates (models_data : MData) (tier : String) : List (Int × String) :=
  models_data.data.filterMap (fun model =>
    if pyStartsWith model.id "anthropic/claude" then
      match extract_claude_tier model.id with
      | some t => if t == tier && !excludedVariant model.id then some (model.created, model.id) else none
      | none => none
    else none)

/-- Descending lexicographic order on (created, id), as used by
candidates.sort(reverse=True). -/
def pairDescLe (a b : Int × String) : Bool :=
  b.1 < a.1 || (b.1 == a.1 && decide (b.2 ≤ a.2))

/-- models.py _build_claude_aliases: per tier, the candidate with the
largest (created, id) pair, as an association list over CLAUDE_TIERS. -/
def build_claude_aliases (models_data : MData) : List (String × String) :=
  CLAUDE_TIERS.filterMap (fun tier =>
    match ((tierCandidates models_data tier).mergeSort pairDescLe).head? with
    | some c => some (tier, c.2)
    | none => none)

/-- models.py _build_model_params: model id to supported parameters,
skipping entries whose id or supported list is falsy. -/
def build_model_params (models_data : MData) : List (String × List String) :=
  models_data.data.foldl (fun params model =>
    if model.id != "" && !model.supported_parameters.isEmpty then
      (params.filter (fun p => p.1 != model.id)) ++ [(model.id, model.supported_parameters)]
    else params) []

/-- models.py get_supported_params over a built parameter map (the
populated-cache case). -/
def get_supported_params (params : List (String × List String)) (model_id : String) :
    Option (List String) :=
  params.lookup model_id

/-- models.py map_model over a built alias map (the populated-cache
case). -/
def map_model (aliases : List (String × String)) (anthropic_model : String) : String :=
  if pyIn "/" anthropic_model then anthropic_model
  else
    match CLAUDE_TIERS.findSome? (fun tier =>
      if pyIn tier (pyLower anthropic_model) then aliases.lookup tier else none) with
    | some v => v
    | none => anthropic_model

/-! ## Helper lemmas for the models.py claims -/

theorem listIsPre_subset {p l : List Char} (h : listIsPre p l = true) : ∀ a ∈ p, a ∈ l := by
  induction p generalizing l with
  | nil => intro a ha; cases ha
  | cons x xs ih =>
    cases l with
    | nil => simp [listIsPre] at h
    | cons y ys =>
      simp only [listIsPre, Bool.and_eq_true, beq_iff_eq] at h
      intro a ha
      rcases List.mem_cons.mp ha with rfl | ha2
      · exact h.1 ▸ List.mem_cons_self _ _
      · exact List.mem_cons_of_mem _ (ih h.2 a ha2)

theorem listIsSub_singleton {a : Char} {l : List Char} (h : a ∈ l) : listIsSub [a] l = true := by
  induction l with
  | nil => cases h
  | cons c t ih =>
    rcases List.mem_cons.mp h with rfl | h2
    · simp [listIsSub, listIsPre]
    · simp [listIsSub, ih h2]

theorem pyIn_slash_of_startsWith {v : String}
    (h : pyStartsWith v "anthropic/claude" = true) : pyIn "/" v = true := by
  have hmem : '/' ∈ v.toList :=
    listIsPre_subset h '/' (by decide)
  simpa [pyIn] using listIsSub_singleton hmem

theorem lookup_mem {α β : Type} [BEq α] [LawfulBEq α] {l : List (α × β)} {a : α} {b : β}
    (h : l.lookup a = some b) : (a, b) ∈ l := by
  induction l with
  | nil => simp [List.lookup] at h
  | cons p t ih =>
    rw [List.lookup] at h
    cases hab : (a == p.1) with
    | true =>
      rw [hab] at h
      cases h
      have : a = p.1 := by simpa using hab
      subst this
      exact List.mem_cons_self _ _
    | false =>
      rw [hab] at h
      exact List.mem_cons_of_mem _ (ih h)

theorem findSome?_exists {α β : Type} {l : List α} {f : α → Option β} {b : β}
    (h : l.findSome? f = some b) : ∃ a ∈ l, f a = some b := by
  induction l with
  | nil => simp [List.findSome?] at h
  | cons x t ih =>
    rw [List.findSome?] at h
    cases hx : f x with
    | some v =>
      rw [hx] at h
      cases h
      exact ⟨x, List.mem_cons_self _ _, hx⟩
    | none =>
      rw [hx] at h
      obtain ⟨a, ha, hfa⟩ := ih h
      exact ⟨a, List.mem_cons_of_mem _ ha, hfa⟩

theorem alias_value_has_slash {d : MData} {tier v : String}
    (h : (tier, v) ∈ build_claude_aliases d) : pyIn "/" v = true := by
  rw [build_claude_aliases] at h
  obtain ⟨t0, ht0, hft⟩ := List.mem_filterMap.mp h
  cases hh : ((tierCandidates d t0).mergeSort pairDescLe).head? with
  | none => rw [hh] at hft; cases hft
  | some c =>
    rw [hh] at hft
    cases hft
    have hc : c ∈ (tierCandidates d tier).mergeSort pairDescLe := List.mem_of_mem_head? hh
    have hc2 : c ∈ tierCandidates d tier :=
      (List.mergeSort_perm (tierCandidates d tier) pairDescLe).mem_iff.mp hc
    rw [tierCandidates] at hc2
    obtain ⟨model, hmodel, hm⟩ := List.mem_filterMap.mp hc2
    by_cases hs : pyStartsWith model.id "anthropic/claude" = true
    · rw [if_pos hs] at hm
      cases hext : extract_claude_tier model.id with
      | none => rw [hext] at hm; cases hm
      | some t1 =>
        rw [hext] at hm
        split at hm
        · split at hm
          · cases hm
            exact pyIn_slash_of_startsWith hs
          · cases hm
        · cases hm
    · rw [if_neg hs] at hm; cases hm

/-! ## Claims C3 and C4 -/

/-- Claim C3 (code evidence): the spec and the docstring of
get_supported_params promise an empty set for a model listed upstream
with an empty supported-parameters list, but build_model_params skips
falsy supported lists, so the lookup returns the absent result (none)
for such a model; a model with a non-empty list is returned as stated.
This exhibits the divergence at the concrete failing input. -/
theorem c3_listed_empty_params_is_absent :
    get_supported_params
      (build_model_params { data := [{ id := "acme/m1", supported_parameters := [] }] })
      "acme/m1" = none ∧
    get_supported_params
      (build_model_params
        { data := [{ id := "acme/m1", supported_parameters := ["temperature"] }] })
      "acme/m1" = some ["temperature"] := by
  constructor
  · rfl
  · rfl

/-- Claim C4: the model resolver is idempotent for every alias map
built from a fetched model list: resolving twice equals resolving
once. -/
theorem c4_map_model_idempotent (d : MData) (m : String) :
    map_model (build_claude_aliases d) (map_model (build_claude_aliases d) m) =
      map_model (build_claude_aliases d) m := by
  by_cases h : pyIn "/" m = true
  · have h1 : map_model (build_claude_aliases d) m = m := by
      rw [map_model, if_pos h]
    rw [h1]
    exact h1
  · cases hf : CLAUDE_TIERS.findSome? (fun tier =>
        if pyIn tier (pyLower m) = true then (build_claude_aliases d).lookup tier else none) with
    | some v =>
      have h1 : map_model (build_claude_aliases d) m = v := by
        rw [map_model, if_neg h, hf]
      rw [h1]
      obtain ⟨tier, htier, hft⟩ := findSome?_exists hf
      by_cases hin : pyIn tier (pyLower m) = true
      · rw [if_pos hin] at hft
        have hmem : (tier, v) ∈ build_claude_aliases d := lookup_mem hft
        have hslash : pyIn "/" v = true := alias_value_has_slash hmem
        rw [map_model, if_pos hslash]
      · rw [if_neg hin] at hft; cases hft
    | none =>
      have h1 : map_model (build_claude_aliases d) m = m := by
        rw [map_model, if_neg h, hf]
      rw [h1, h1]

/-! ## transform.py: openai_to_anthropic (non-streaming response translation) -/

/-- The function object inside an OpenAI tool call (tc.get('function', \x7b\x7d)). -/
structure OFunc where
  name : Option String := none
  arguments : Option String := none
deriving Repr, DecidableEq

/-- One entry of message.tool_calls in an OpenAI completion. -/
structure OToolCall where
  id : Option String := none
  function : Option OFunc := none
deriving Repr, DecidableEq

/-- choices[0].message of an OpenAI completion. -/
structure OMessage where
  reasoning : Option String := none
  content : Option String := none
  tool_calls : Option (List OToolCall) := none
deriving Repr, DecidableEq

/-- One element of choices in an OpenAI completion. -/
structure RChoice where
  message : Option OMessage := none
  finish_reason : Option String := none
deriving Repr, DecidableEq

/-- The usage object of an OpenAI completion. -/
structure RUsage where
  prompt_tokens : Option Int := none
  completion_tokens : Option Int := none
deriving Repr, DecidableEq

/-- An OpenAI completion response body. -/
structure RData where
  choices : Option (List RChoice) := none
  usage : Option RUsage := none
deriving Repr, DecidableEq

/-- An Anthropic output content block. -/
inductive ABlock where
  | thinking (text : String) (signature : String)
  | text (text : String)
  | tool_use (id : Option String) (name : Option String) (input : Jv)
deriving Repr

/-- Truthiness of an optional string field read with dict.get. -/
def strTruthy : Option String → Bool
  | none => false
  | some s => s != ""

/-- Truthiness of an optional list field read with dict.get. -/
def listTruthy {α : Type} : Option (List α) → Bool
  | none => false
  | some l => !l.isEmpty

/-- The Anthropic message produced by openai_to_anthropic. -/
structure AResp where
  id : String
  type : String
  role : String
  content : List ABlock
  model : String
  stop_reason : String
  stop_sequence : Option String
  input_tokens : Int
  output_tokens : Int
deriving Repr

/-- transform.py openai_to_anthropic.  json.loads is modelled by the
parseJson parameter (none = JSONDecodeError) and the current epoch
milliseconds by nowMs.  The access choices[0] on a present-but-empty
choices list raises IndexError in the source; that failure is the none
result. -/
def openai_to_anthropic (parseJson : String → Option Jv) (nowMs : Int) (data : RData)
    (model : String) : Option AResp :=
  let message_id := "msg_" ++ toString nowMs
  match (data.choices.getD [({} : RChoice)]).head? with
  | none => none
  | some choice =>
    let message := choice.message.getD {}
    let content1 : List ABlock :=
      if strTruthy message.reasoning then
        [.thinking (message.reasoning.getD "") "openrouter-reasoning"]
      else []
    let content2 : List ABlock :=
      if strTruthy message.content then content1 ++ [.text (message.content.getD "")]
      else content1
    let content3 : List ABlock :=
      if listTruthy message.tool_calls then
        content2 ++ (message.tool_calls.getD []).map (fun tc =>
          let func := tc.function.getD {}
          let input_data := (parseJson (func.arguments.getD "\x7b\x7d")).getD (Jv.obj [])
          ABlock.tool_use tc.id func.name input_data)
      else content2
    let usage := data.usage.getD {}
    let finish_reason := choice.finish_reason.getD ""
    let has_tool_calls := finish_reason == "tool_calls" || listTruthy message.tool_calls
    let stop_reason := if has_tool_calls then "tool_use" else "end_turn"
    some {
      id := message_id
      type := "message"
      role := "assistant"
      content := content3
      model := model
      stop_reason := stop_reason
      stop_sequence := none
      input_tokens := usage.prompt_tokens.getD 0
      output_tokens := usage.completion_tokens.getD 0
    }

/-- listTruthy as a proposition. -/
theorem listTruthy_iff {α : Type} (o : Option (List α)) :
    listTruthy o = true ↔ ∃ l, o = some l ∧ l ≠ [] := by
  cases o with
  | none => simp [listTruthy]
  | some l =>
    cases l with
    | nil => simp [listTruthy]
    | cons x xs =>
      simp only [listTruthy, List.isEmpty_cons, Bool.not_false]
      constructor
      · intro _; exact ⟨x :: xs, rfl, by simp⟩
      · intro _; trivial

/-- The stop-reason guard as a proposition. -/
theorem finish_guard_iff (o : Option String) :
    (o.getD "" == "tool_calls") = true ↔ o = some "tool_calls" := by
  cases o with
  | none => simp
  | some s => simp

/-- Claim C5: in the non-streaming response translation, stop_reason is
tool_use exactly when choices[0].finish_reason equals tool_calls or
message.tool_calls is non-empty, and otherwise it is end_turn. -/
theorem c5_stop_reason (parseJson : String → Option Jv) (nowMs : Int) (data : RData)
    (model : String) (choice : RChoice) (resp : AResp)
    (hchoice : (data.choices.getD [({} : RChoice)]).head? = some choice)
    (hresp : openai_to_anthropic parseJson nowMs data model = some resp) :
    (resp.stop_reason = "tool_use" ↔
      (choice.finish_reason = some "tool_calls" ∨
        ∃ tcs, (choice.message.getD {}).tool_calls = some tcs ∧ tcs ≠ [])) ∧
    (resp.stop_reason = "tool_use" ∨ resp.stop_reason = "end_turn") := by
  simp only [openai_to_anthropic, hchoice, Option.some.injEq] at hresp
  subst hresp
  dsimp only
  cases hcond : ((choice.finish_reason.getD "" == "tool_calls") ||
      listTruthy (choice.message.getD {}).tool_calls) with
  | true =>
    rw [show (if (true : Bool) = true then "tool_use" else "end_turn") = "tool_use" from rfl]
    have hrhs : choice.finish_reason = some "tool_calls" ∨
        ∃ tcs, (choice.message.getD {}).tool_calls = some tcs ∧ tcs ≠ [] := by
      rcases Bool.or_eq_true_iff.mp hcond with h1 | h2
      · exact Or.inl ((finish_guard_iff _).mp h1)
      · exact Or.inr ((listTruthy_iff _).mp h2)
    exact ⟨iff_of_true rfl hrhs, Or.inl rfl⟩
  | false =>
    rw [show (if (false : Bool) = true then "tool_use" else "end_turn") = "end_turn" from rfl]
    have hrhs : ¬ (choice.finish_reason = some "tool_calls" ∨
        ∃ tcs, (choice.message.getD {}).tool_calls = some tcs ∧ tcs ≠ []) := by
      intro hr
      have : ((choice.finish_reason.getD "" == "tool_calls") ||
          listTruthy (choice.message.getD {}).tool_calls) = true := by
        rcases hr with h1 | h2
        · exact Bool.or_eq_true_iff.mpr (Or.inl ((finish_guard_iff _).mpr h1))
        · exact Bool.or_eq_true_iff.mpr (Or.inr ((listTruthy_iff _).mpr h2))
      rw [hcond] at this
      cases this
    exact ⟨iff_of_false (by decide) hrhs, Or.inr rfl⟩

/-- Witness for C5 at a concrete completion whose finish_reason is
tool_calls. -/
theorem c5_stop_reason_witness :
    ∃ resp : AResp, openai_to_anthropic (fun _ => none) 0
        ({ choices := some [{ finish_reason := some "tool_calls" }] } : RData) "m" = some resp ∧
      resp.stop_reason = "tool_use" := by
  refine ⟨_, rfl, ?_⟩
  exact ((c5_stop_reason (fun _ => none) 0
      { choices := some [{ finish_reason := some "tool_calls" }] } "m"
      { finish_reason := some "tool_calls" } _ rfl rfl).1).mpr (Or.inl rfl)

/-- Claim C6: a tool_calls entry whose argument string fails to parse
yields a tool_use block with empty-object input, and the stop_reason is
the same as under any other parse outcome for the same data. -/
theorem c6_bad_json_args (parseJson parse2 : String → Option Jv) (nowMs : Int)
    (data : RData) (model : String) (choice : RChoice) (tc : OToolCall)
    (resp resp2 : AResp)
    (hchoice : (data.choices.getD [({} : RChoice)]).head? = some choice)
    (hresp : openai_to_anthropic parseJson nowMs data model = some resp)
    (hresp2 : openai_to_anthropic parse2 nowMs data model = some resp2)
    (htc : tc ∈ (choice.message.getD {}).tool_calls.getD [])
    (hbad : parseJson ((tc.function.getD {}).arguments.getD "\x7b\x7d") = none) :
    ABlock.tool_use tc.id (tc.function.getD {}).name (Jv.obj []) ∈ resp.content ∧
    resp2.stop_reason = resp.stop_reason := by
  simp only [openai_to_anthropic, hchoice, Option.some.injEq] at hresp hresp2
  subst hresp
  subst hresp2
  dsimp only
  constructor
  · cases hmtc : (choice.message.getD {}).tool_calls with
    | none => rw [hmtc] at htc; cases htc
    | some tcs =>
      rw [hmtc] at htc
      simp only [Option.getD_some] at htc
      have htruthy2 : listTruthy (some tcs) = true :=
        (listTruthy_iff _).mpr ⟨tcs, rfl, List.ne_nil_of_mem htc⟩
      rw [htruthy2, if_pos (rfl : (true : Bool) = true)]
      simp only [Option.getD_some]
      refine List.mem_append_right _ (List.mem_map.mpr ⟨tc, htc, ?_⟩)
      dsimp only
      rw [hbad]
      rfl
  · rfl

/-- Concrete tool call with unparseable arguments, for the C6 witness. -/
def c6tc : OToolCall :=
  { id := some "call_1", function := some { name := some "f", arguments := some "not json" } }

/-- Concrete message carrying c6tc, for the C6 witness. -/
def c6msg : OMessage := { tool_calls := some [c6tc] }

/-- Concrete completion carrying c6msg, for the C6 witness. -/
def c6data : RData := { choices := some [{ message := some c6msg }] }

/-- Witness for C6 at a concrete completion with one tool call whose
arguments do not parse. -/
theorem c6_bad_json_args_witness :
    ∃ resp : AResp, openai_to_anthropic (fun _ => none) 0 c6data "m" = some resp ∧
      ABlock.tool_use (some "call_1") (some "f") (Jv.obj []) ∈ resp.content := by
  refine ⟨_, rfl, ?_⟩
  exact (c6_bad_json_args (fun _ => none) (fun _ => none) 0 c6data "m"
    { message := some c6msg } c6tc
    _ _ rfl rfl rfl (by rw [c6msg]; exact List.mem_singleton.mpr rfl) rfl).1

/-- Claim C10: openai_to_anthropic is total only when choices is absent
or non-empty: an absent choices yields a well-formed message with empty
content and stop_reason end_turn, while a present-but-empty choices
list makes choices[0] fail (modelled as the none result). -/
theorem c10_choices_empty_vs_absent (parseJson : String → Option Jv) (nowMs : Int)
    (data : RData) (model : String) :
    (data.choices = none →
      ∃ resp, openai_to_anthropic parseJson nowMs data model = some resp ∧
        resp.content = [] ∧ resp.stop_reason = "end_turn") ∧
    (data.choices = some [] → openai_to_anthropic parseJson nowMs data model = none) := by
  constructor
  · intro h
    rw [openai_to_anthropic, h]
    exact ⟨_, rfl, rfl, rfl⟩
  · intro h
    rw [openai_to_anthropic, h]
    rfl

/-- Witness for C10 at data with absent choices and at data with empty
choices. -/
theorem c10_choices_empty_vs_absent_witness :
    (∃ resp, openai_to_anthropic (fun _ => none) 0 ({ choices := none } : RData) "m" = some resp ∧
      resp.content = [] ∧ resp.stop_reason = "end_turn") ∧
    openai_to_anthropic (fun _ => none) 0 ({ choices := some [] } : RData) "m" = none :=
  ⟨(c10_choices_empty_vs_absent (fun _ => none) 0 { choices := none } "m").1 rfl,
   (c10_choices_empty_vs_absent (fun _ => none) 0 { choices := some [] } "m").2 rfl⟩

/-! ## transform.py: anthropic_to_openai (request translation) -/

/-- One part of an Anthropic content-parts list.  Parts with any other
type string are skipped by the source, modelled by the other
constructor.  dict.get defaults are folded into the payloads. -/
inductive APart where
  | text (t : Jv)
  | tool_use (id : Option String) (name : Option String) (input : Jv)
  | tool_result (tool_use_id : Option String) (content : Jv)
  | other
deriving Repr

/-- The content of an Anthropic turn: a plain string, a parts list, or
anything else (absent, null, a number, a dict), which the source skips. -/
inductive AContent where
  | absent
  | str (s : String)
  | parts (ps : List APart)
deriving Repr

/-- One Anthropic input turn. -/
structure ATurn where
  role : Option String := none
  content : AContent := .absent
deriving Repr

/-- One entry of a list-valued system field (item.get('text', '')). -/
structure SysEntry where
  text : Jv := .str ""
deriving Repr

/-- The system field of an Anthropic request: absent (or any non-str,
non-list value), a string, or a list of entries. -/
inductive SystemF where
  | absent
  | str (s : String)
  | list (items : List SysEntry)
deriving Repr

/-- One entry of the tools list of an Anthropic request. -/
structure ATool where
  name : Option Jv := none
  description : Option Jv := none
  input_schema : Option Jv := none
deriving Repr

/-- An Anthropic request body; every field is read with dict.get in the
source, so absent keys are none (or the explicit defaults). -/
structure ABody where
  model : String := ""
  messages : List ATurn := []
  system : SystemF := .absent
  tools : Option (List ATool) := none
  stream : Option Jv := none
  temperature : Option Jv := none
  reasoning : Option Jv := none
  reasoning_effort : Option Jv := none
  thinking : Option (List (String × Jv)) := none
  max_tokens : Option Jv := none
  top_p : Option Jv := none
  top_k : Option Jv := none
  stop_sequences : Option Jv := none
  tool_choice : Option Jv := none
deriving Repr

/-- A tool_calls entry of a translated OpenAI assistant turn; the
constant field type: function is not represented. -/
structure OutToolCall where
  id : Option String := none
  name : Option String := none
  arguments : String := ""
deriving Repr, DecidableEq

/-- One content part of a translated system turn. -/
structure SysPart where
  text : Jv := .str ""
  cache_control : Bool := false
deriving Repr

/-- The content field of a translated OpenAI message: the key can be
missing (absent), explicitly None (null), a string, or the parts list
used by system turns. -/
inductive OContent where
  | absent
  | null
  | str (s : String)
  | parts (ps : List SysPart)
deriving Repr

/-- A translated OpenAI chat message. -/
structure OMsg where
  role : Option String := none
  content : OContent := .absent
  tool_calls : Option (List OutToolCall) := none
  tool_call_id : Option String := none
deriving Repr

/-- Truthiness of msg.get('content'). -/
def contentTruthy : OContent → Bool
  | .absent => false
  | .null => false
  | .str s => s != ""
  | .parts ps => !ps.isEmpty

/-- Truthiness of current.get('content') for a message. -/
def msgContentTruthy (m : OMsg) : Bool := contentTruthy m.content

/-- Truthiness of current.get('tool_calls') for a message. -/
def msgToolCallsTruthy (m : OMsg) : Bool := listTruthy m.tool_calls

/-- Whether a message has role tool. -/
def isToolRole (m : OMsg) : Bool := m.role == some "tool"

/-- transform.py _validate_tool_calls, one loop iteration: pre is the
already-scanned part of the original list in reverse order (the
backward scan walks it), m the current message, suf the rest of the
original list (the forward scan reads it). -/
def validateStep (pre : List OMsg) (m : OMsg) (suf : List OMsg) : Option OMsg :=
  if m.role == some "assistant" && msgToolCallsTruthy m then
    let immediate_tool_msgs := suf.takeWhile isToolRole
    let tool_msg_ids := immediate_tool_msgs.map (fun t => t.tool_call_id)
    let valid_calls := (m.tool_calls.getD []).filter (fun tcall => tool_msg_ids.contains tcall.id)
    let m2 : OMsg := if valid_calls.isEmpty then { m with tool_calls := none }
                     else { m with tool_calls := some valid_calls }
    if msgContentTruthy m2 || msgToolCallsTruthy m2 then some m2 else none
  else if isToolRole m then
    let has_match :=
      match (pre.dropWhile isToolRole).head? with
      | some prev => prev.role == some "assistant" && msgToolCallsTruthy prev &&
          (prev.tool_calls.getD []).any (fun tcall => tcall.id == m.tool_call_id)
      | none => false
    if has_match then some m else none
  else
    some m

/-- The loop of _validate_tool_calls, threading the reversed prefix. -/
def validateAux (pre : List OMsg) : List OMsg → List OMsg
  | [] => []
  | m :: suf =>
    match validateStep pre m suf with
    | some m2 => m2 :: validateAux (m :: pre) suf
    | none => validateAux (m :: pre) suf

/-- transform.py _validate_tool_calls. -/
def validate_tool_calls (messages : List OMsg) : List OMsg := validateAux [] messages

/-- A text part value: kept when a string, json.dumps otherwise. -/
def textOfJv : Jv → String
  | .str s => s
  | v => jvDumps v

/-- The translation of one Anthropic turn into OpenAI messages (the
body of the per-message loop of anthropic_to_openai, which handles each
turn independently). -/
def translateTurn (t : ATurn) : List OMsg :=
  match t.content with
  | .absent => []
  | .str s => [{ role := t.role, content := .str s }]
  | .parts ps =>
    if t.role == some "assistant" then
      let text_parts := ps.filterMap (fun p => match p with
        | .text tv => some (textOfJv tv)
        | _ => none)
      let tool_calls := ps.filterMap (fun p => match p with
        | .tool_use id name input =>
            some ({ id := id, name := name, arguments := jvDumps input } : OutToolCall)
        | _ => none)
      let text_content := pyStrip (String.intercalate "\n" text_parts)
      let m1 : OMsg := { role := some "assistant", content := .null }
      let m2 := if text_content != "" then { m1 with content := .str text_content } else m1
      let m3 := if !tool_calls.isEmpty then { m2 with tool_calls := some tool_calls } else m2
      if msgContentTruthy m3 || msgToolCallsTruthy m3 then [m3] else []
    else if t.role == some "user" then
      let text_parts := ps.filterMap (fun p => match p with
        | .text tv => some (textOfJv tv)
        | _ => none)
      let tool_results := ps.filterMap (fun p => match p with
        | .tool_result tuid c =>
            some ({ role := some "tool", tool_call_id := tuid,
                    content := .str (textOfJv c) } : OMsg)
        | _ => none)
      let text_content := pyStrip (String.intercalate "\n" text_parts)
      (if text_content != "" then [({ role := some "user", content := .str text_content } : OMsg)]
       else []) ++ tool_results
    else []

/-- The system turns produced by anthropic_to_openai; model is the
already-resolved model id (cache_control when it contains claude). -/
def systemMessages (sys : SystemF) (model : String) : List OMsg :=
  match sys with
  | .absent => []
  | .str s =>
    [{ role := some "system",
       content := .parts [{ text := .str s, cache_control := pyIn "claude" model }] }]
  | .list items =>
    items.map (fun item =>
      ({ role := some "system",
         content := .parts [{ text := item.text, cache_control := pyIn "claude" model }] } : OMsg))

/-- Truthiness of an optional Jv field read with dict.get. -/
def optTruthy : Option Jv → Bool
  | none => false
  | some v => pyTruthy v

/-- The guard thinking and thinking.get('type') == 'enabled'. -/
def thinkingEnabledB : Option (List (String × Jv)) → Bool
  | none => false
  | some fs => !fs.isEmpty && (fs.lookup "type" == some (Jv.str "enabled"))

/-- The translated OpenAI request (absent keys are none). -/
structure OReq where
  model : String
  messages : List OMsg
  stream : Jv
  temperature : Option Jv := none
  max_tokens : Option Jv := none
  top_p : Option Jv := none
  top_k : Option Jv := none
  stop : Option Jv := none
  reasoning : Option Jv := none
  reasoning_effort : Option Jv := none
  tool_choice : Option Jv := none
  tools : Option (List Jv) := none
deriving Repr

/-- transform.py anthropic_to_openai.  The alias map consumed by
map_model and the optional model override are parameters (the source
reads them from the process-wide registry and the config). -/
def anthropic_to_openai (aliases : List (String × String)) (model_override : Option String)
    (body : ABody) : OReq :=
  let model := match model_override with
    | some o => if o != "" then o else map_model aliases body.model
    | none => map_model aliases body.model
  let openai_messages := (body.messages.map translateTurn).flatten
  let reasoning_out : Option Jv :=
    if optTruthy body.reasoning then body.reasoning
    else if thinkingEnabledB body.thinking then
      some (Jv.obj [("max_tokens", ((body.thinking.getD []).lookup "budget_tokens").getD Jv.null)])
    else none
  let tool_choice_out : Option Jv :=
    match body.tool_choice with
    | some tcv =>
      if pyTruthy tcv then
        match tcv with
        | .obj fs =>
          if fs.lookup "type" == some (Jv.str "auto") then some (.str "auto")
          else if fs.lookup "type" == some (Jv.str "any") then some (.str "required")
          else if fs.lookup "type" == some (Jv.str "tool") then
            some (.obj [("type", .str "function"),
                        ("function", .obj [("name", (fs.lookup "name").getD .null)])])
          else none
        | v => some v
      else none
    | none => none
  let tools_out : Option (List Jv) :=
    match body.tools with
    | some ts =>
      if !ts.isEmpty then
        some (ts.map (fun t => Jv.obj [("type", .str "function"),
          ("function", .obj [("name", t.name.getD .null),
                             ("description", t.description.getD (.str "")),
                             ("parameters", t.input_schema.getD (.obj []))])]))
      else none
    | none => none
  { model := model
    messages := systemMessages body.system model ++ validate_tool_calls openai_messages
    stream := body.stream.getD (Jv.bool false)
    temperature := body.temperature
    max_tokens := body.max_tokens
    top_p := body.top_p
    top_k := body.top_k
    stop := (match body.stop_sequences with
      | some v => if pyTruthy v then some v else none
      | none => none)
    reasoning := reasoning_out
    reasoning_effort := (match body.reasoning_effort with
      | some v => if pyTruthy v then some v else none
      | none => none)
    tool_choice := tool_choice_out
    tools := tools_out }

/-- The tool_calls entries collected from a parts list by the
assistant branch of the per-message loop. -/
def collectToolCalls (ps : List APart) : List OutToolCall :=
  ps.filterMap (fun p => match p with
    | .tool_use id name input =>
        some ({ id := id, name := name, arguments := jvDumps input } : OutToolCall)
    | _ => none)

/-- The text fragments collected from a parts list. -/
def collectTexts (ps : List APart) : List String :=
  ps.filterMap (fun p => match p with
    | .text tv => some (textOfJv tv)
    | _ => none)

/-- Claim C7 (counterexample): for an assistant turn with only
tool_use parts, the translator emits an assistant turn whose content
key is present and explicitly null (Python sets content = None and
never deletes it), not a turn without a content field; the claim as
stated (no content field at all) is false. -/
theorem c7_content_null_counterexample :
    (anthropic_to_openai [] none
      { messages := [
          { role := some "assistant",
            content := .parts [APart.tool_use (some "t1") (some "f") (Jv.obj [])] },
          { role := some "user",
            content := .parts [APart.tool_result (some "t1") (Jv.str "ok")] }] }).messages =
      [{ role := some "assistant", content := OContent.null,
         tool_calls := some [{ id := some "t1", name := some "f", arguments := "\x7b\x7d" }] },
       { role := some "tool", content := OContent.str "ok", tool_call_id := some "t1" }] ∧
    OContent.null ≠ OContent.absent :=
  ⟨rfl, fun h => OContent.noConfusion h⟩

/-- Claim C7 (amended): an assistant turn whose parts contain at least
one tool_use and whose text parts strip to the empty string is emitted
as a single assistant turn whose content field is present and null and
whose tool_calls are the collected tool_use entries. -/
theorem c7_tool_only_assistant (t : ATurn) (ps : List APart)
    (hrole : t.role = some "assistant")
    (hcontent : t.content = AContent.parts ps)
    (htext : pyStrip (String.intercalate "\n" (collectTexts ps)) = "")
    (htools : collectToolCalls ps ≠ []) :
    translateTurn t =
      [{ role := some "assistant", content := OContent.null,
         tool_calls := some (collectToolCalls ps) }] := by
  rw [translateTurn, hcontent, hrole]
  cases hlist : collectToolCalls ps with
  | nil => exact absurd hlist htools
  | cons a as =>
    rw [collectToolCalls] at hlist
    rw [collectTexts] at htext
    simp only [hlist, htext]
    rfl

/-- Witness for the amended C7 at a concrete tool_use-only assistant
turn. -/
theorem c7_tool_only_assistant_witness :
    translateTurn
      { role := some "assistant",
        content := .parts [APart.text (Jv.str "  "),
                           APart.tool_use (some "t9") (some "g") (Jv.obj [])] } =
      [{ role := some "assistant", content := OContent.null,
         tool_calls := some [{ id := some "t9", name := some "g", arguments := "\x7b\x7d" }] }] := by
  have h := c7_tool_only_assistant
    { role := some "assistant",
      content := .parts [APart.text (Jv.str "  "),
                         APart.tool_use (some "t9") (some "g") (Jv.obj [])] }
    [APart.text (Jv.str "  "), APart.tool_use (some "t9") (some "g") (Jv.obj [])]
    rfl rfl rfl (by intro h2; cases h2)
  exact h

/-- Claim C8 (counterexample): a present but falsy reasoning value is
not copied verbatim: with reasoning = an empty object and thinking
enabled, the output reasoning is built from thinking; with no thinking
it is dropped entirely; a present but falsy reasoning_effort is also
dropped.  The claim as stated (copied verbatim whenever present) is
false. -/
theorem c8_reasoning_falsy_counterexample :
    (anthropic_to_openai [] none
        { reasoning := some (Jv.obj []),
          thinking := some [("type", Jv.str "enabled"), ("budget_tokens", Jv.num 512)] }).reasoning =
      some (Jv.obj [("max_tokens", Jv.num 512)]) ∧
    ¬ (Jv.obj [("max_tokens", Jv.num 512)] = Jv.obj []) ∧
    (anthropic_to_openai [] none { reasoning := some (Jv.obj []) }).reasoning = none ∧
    (anthropic_to_openai [] none { reasoning_effort := some (Jv.str "") }).reasoning_effort =
      none := by
  refine ⟨rfl, ?_, rfl, rfl⟩
  intro h
  injection h with h2
  cases h2

/-- Claim C8 (amended): reasoning is copied verbatim only when truthy;
when reasoning is absent or falsy and thinking is a non-empty object
with type enabled, reasoning is set to max_tokens from
thinking.budget_tokens, and otherwise reasoning is omitted;
reasoning_effort is copied verbatim exactly when truthy. -/
theorem c8_reasoning_truthiness (aliases : List (String × String)) (ovr : Option String)
    (body : ABody) :
    ((optTruthy body.reasoning = true →
      (anthropic_to_openai aliases ovr body).reasoning = body.reasoning) ∧
     (optTruthy body.reasoning = false → thinkingEnabledB body.thinking = true →
      (anthropic_to_openai aliases ovr body).reasoning =
        some (Jv.obj [("max_tokens",
          ((body.thinking.getD []).lookup "budget_tokens").getD Jv.null)])) ∧
     (optTruthy body.reasoning = false → thinkingEnabledB body.thinking = false →
      (anthropic_to_openai aliases ovr body).reasoning = none)) ∧
    ((optTruthy body.reasoning_effort = true →
      (anthropic_to_openai aliases ovr body).reasoning_effort = body.reasoning_effort) ∧
     (optTruthy body.reasoning_effort = false →
      (anthropic_to_openai aliases ovr body).reasoning_effort = none)) := by
  rw [anthropic_to_openai.eq_def]
  dsimp only
  constructor
  · refine ⟨?_, ?_, ?_⟩
    · intro h
      rw [h]
      rfl
    · intro h1 h2
      rw [h1, h2]
      rfl
    · intro h1 h2
      rw [h1, h2]
      rfl
  · constructor
    · intro h
      cases he : body.reasoning_effort with
      | none => simp [he, optTruthy] at h
      | some v =>
        rw [he] at h
        simp only [optTruthy] at h
        simp [h]
    · intro h
      cases he : body.reasoning_effort with
      | none => rfl
      | some v =>
        rw [he] at h
        simp only [optTruthy] at h
        simp [h]

/-- Witness for the amended C8 at concrete bodies with a truthy
reasoning value and with thinking enabled. -/
theorem c8_reasoning_truthiness_witness :
    (anthropic_to_openai [] none { reasoning := some (Jv.str "auto") }).reasoning =
        some (Jv.str "auto") ∧
    (anthropic_to_openai [] none
        { thinking := some [("type", Jv.str "enabled"), ("budget_tokens", Jv.num 7)] }).reasoning =
      some (Jv.obj [("max_tokens", Jv.num 7)]) := by
  constructor
  · exact (c8_reasoning_truthiness [] none { reasoning := some (Jv.str "auto") }).1.1 rfl
  · exact (c8_reasoning_truthiness [] none
      { thinking := some [("type", Jv.str "enabled"), ("budget_tokens", Jv.num 7)] }).1.2.1 rfl rfl

/-! ## stream.py: stream_openai_to_anthropic -/

/-- One entry of delta.tool_calls in an upstream streaming chunk (its
function object is read like the non-streaming one). -/
structure TCDelta where
  id : Option String := none
  function : Option OFunc := none
deriving Repr, DecidableEq

/-- The delta object of choices[0] in an upstream chunk. -/
structure SDelta where
  tool_calls : Option (List TCDelta) := none
  reasoning : Option String := none
  content : Option String := none
deriving Repr, DecidableEq

/-- One element of choices in an upstream chunk; an absent or empty
delta dict (both falsy, both skipped) is none. -/
structure SChoice where
  delta : Option SDelta := none
deriving Repr, DecidableEq

/-- The usage object of an upstream chunk. -/
structure SUsage where
  completion_tokens : Option Int := none
deriving Repr, DecidableEq

/-- An upstream streaming chunk; usage is none when absent or falsy
(the source stores it only when truthy). -/
structure SChunk where
  usage : Option SUsage := none
  choices : List SChoice := []
deriving Repr, DecidableEq

/-- One upstream SSE line after the line parsing of the source: blank
or non-data lines, the [DONE] sentinel, and undecodable payloads are
all skipped; a decodable payload carries a chunk. -/
inductive SLine where
  | other : SLine
  | done : SLine
  | invalid : SLine
  | data : SChunk → SLine
deriving Repr, DecidableEq

/-- The content_block payload of a content_block_start event. -/
inductive CBlock where
  | tool_use (id : String) (name : Option String)
  | thinking
  | text
deriving Repr, DecidableEq

/-- The delta payload of a content_block_delta event. -/
inductive BDelta where
  | input_json_delta (partial_json : String)
  | thinking_delta (thinking : String)
  | text_delta (text : String)
deriving Repr, DecidableEq

/-- An emitted Anthropic SSE event (payload fields that no claim
depends on, such as the message id, are not carried). -/
inductive SEvent where
  | message_start (model : String) (input_tokens : Int)
  | content_block_start (index : Nat) (block : CBlock)
  | content_block_delta (index : Nat) (d : BDelta)
  | content_block_stop (index : Nat)
  | message_delta (stop_reason : String) (output_tokens : Int)
  | message_stop
deriving Repr, DecidableEq

/-- The mutable state of the streaming loop. -/
structure SState where
  content_block_index : Nat := 0
  has_started_text_block : Bool := false
  has_started_thinking_block : Bool := false
  is_tool_use : Bool := false
  current_tool_call_id : Option String := none
  tool_call_json : List (String × String) := []
  usage : Option SUsage := none
deriving Repr, DecidableEq

/-- Assignment tool_call_json[k] = v on the association-list model of
the dict. -/
def alistSet (l : List (String × String)) (k : String) (v : String) :
    List (String × String) :=
  if l.any (fun p => p.1 == k) then l.map (fun p => if p.1 == k then (k, v) else p)
  else l ++ [(k, v)]

/-- Accumulation tool_call_json[k] += v (the key is always present
when the source reaches this line). -/
def alistAppend (l : List (String × String)) (k : String) (v : String) :
    List (String × String) :=
  l.map (fun p => if p.1 == k then (p.1, p.2 ++ v) else p)

/-- stream.py, the first half of the tool-call loop body: open a new
tool_use block when the entry carries a truthy id different from the
current one. -/
def toolCallOpen (st : SState) (tool_call : TCDelta) : SState × List SEvent :=
  match tool_call.id with
  | some tid =>
    if tid != "" && some tid != st.current_tool_call_id then
      ({ st with
          is_tool_use := true
          has_started_text_block := false
          has_started_thinking_block := false
          current_tool_call_id := some tid
          content_block_index := st.content_block_index + 1
          tool_call_json := alistSet st.tool_call_json tid "" },
       (if st.is_tool_use || st.has_started_text_block || st.has_started_thinking_block
        then [SEvent.content_block_stop st.content_block_index] else []) ++
       [SEvent.content_block_start (st.content_block_index + 1)
         (CBlock.tool_use tid ((tool_call.function.getD {}).name))])
    else (st, [])
  | none => (st, [])

/-- stream.py, the second half of the tool-call loop body: forward an
argument fragment of the currently open tool call. -/
def toolCallArgs (st : SState) (tool_call : TCDelta) : SState × List SEvent :=
  match (tool_call.function.getD {}).arguments with
  | some fa =>
    if fa != "" then
      match st.current_tool_call_id with
      | some cid =>
        ({ st with tool_call_json := alistAppend st.tool_call_json cid fa },
         [SEvent.content_block_delta st.content_block_index (BDelta.input_json_delta fa)])
      | none => (st, [])
    else (st, [])
  | none => (st, [])

/-- stream.py, the body of the for tool_call in delta.tool_calls loop:
the block-opening step followed by the argument-fragment step. -/
def processToolCall (st : SState) (tool_call : TCDelta) : SState × List SEvent :=
  let r1 := toolCallOpen st tool_call
  let r2 := toolCallArgs r1.1 tool_call
  (r2.1, r1.2 ++ r2.2)

/-- The loop over the entries of delta.tool_calls. -/
def processToolCalls : SState → List TCDelta → SState × List SEvent
  | st, [] => (st, [])
  | st, tc :: rest =>
    let r1 := processToolCall st tc
    let r2 := processToolCalls r1.1 rest
    (r2.1, r1.2 ++ r2.2)

/-- stream.py, the delta dispatch: tool_calls, then reasoning, then
content, each guarded by truthiness. -/
def processDelta (st : SState) (delta : SDelta) : SState × List SEvent :=
  if listTruthy delta.tool_calls then
    processToolCalls st (delta.tool_calls.getD [])
  else if strTruthy delta.reasoning then
    let closes := if st.is_tool_use || st.has_started_text_block
      then [SEvent.content_block_stop st.content_block_index] else []
    let st2 := if st.is_tool_use || st.has_started_text_block then
        { st with is_tool_use := false, has_started_text_block := false,
                  current_tool_call_id := none,
                  content_block_index := st.content_block_index + 1 }
      else st
    let starts := if !st2.has_started_thinking_block then
        [SEvent.content_block_start st2.content_block_index CBlock.thinking] else []
    let st3 := { st2 with has_started_thinking_block := true }
    (st3, closes ++ starts ++
      [SEvent.content_block_delta st3.content_block_index
        (BDelta.thinking_delta (delta.reasoning.getD ""))])
  else if strTruthy delta.content then
    let closes := if st.is_tool_use || st.has_started_thinking_block
      then [SEvent.content_block_stop st.content_block_index] else []
    let st2 := if st.is_tool_use || st.has_started_thinking_block then
        { st with is_tool_use := false, has_started_thinking_block := false,
                  current_tool_call_id := none,
                  content_block_index := st.content_block_index + 1 }
      else st
    let starts := if !st2.has_started_text_block then
        [SEvent.content_block_start st2.content_block_index CBlock.text] else []
    let st3 := { st2 with has_started_text_block := true }
    (st3, closes ++ starts ++
      [SEvent.content_block_delta st3.content_block_index
        (BDelta.text_delta (delta.content.getD ""))])
  else (st, [])

/-- stream.py, one iteration of the line loop. -/
def processLine (st : SState) (l : SLine) : SState × List SEvent :=
  match l with
  | .other => (st, [])
  | .done => (st, [])
  | .invalid => (st, [])
  | .data parsed =>
    let st1 := match parsed.usage with
      | some u => { st with usage := some u }
      | none => st
    match parsed.choices.head? with
    | none => (st1, [])
    | some choice =>
      match choice.delta with
      | none => (st1, [])
      | some delta => processDelta st1 delta

/-- The whole line loop. -/
def processLines : SState → List SLine → SState × List SEvent
  | st, [] => (st, [])
  | st, l :: ls =>
    let r1 := processLine st l
    let r2 := processLines r1.1 ls
    (r2.1, r1.2 ++ r2.2)

/-- Whether any of the three block flags of the loop state is set,
which is exactly when a block is open between loop iterations. -/
def flagsOf (st : SState) : Bool :=
  st.is_tool_use || st.has_started_text_block || st.has_started_thinking_block

/-- stream.py stream_openai_to_anthropic: message_start, the translated
body, the final close of a still-open block, message_delta and
message_stop. -/
def stream_openai_to_anthropic (model : String) (input_tokens : Int) (lines : List SLine) :
    List SEvent :=
  let r := processLines {} lines
  let st := r.1
  let closes := if flagsOf st
    then [SEvent.content_block_stop st.content_block_index] else []
  SEvent.message_start model input_tokens ::
    (r.2 ++ closes ++
      [SEvent.message_delta (if st.is_tool_use then "tool_use" else "end_turn")
        ((st.usage.getD {}).completion_tokens.getD 0),
       SEvent.message_stop])

/-! ## Checkers for the streaming claims -/

/-- Whether an event is a content_block_start. -/
def isStartEv : SEvent → Bool
  | .content_block_start _ _ => true
  | _ => false

/-- Whether an event is a content_block_stop. -/
def isStopEv : SEvent → Bool
  | .content_block_stop _ => true
  | _ => false

/-- Whether an event is a message_start. -/
def isMsgStart : SEvent → Bool
  | .message_start _ _ => true
  | _ => false

/-- Whether an event is a message_stop. -/
def isMsgStop : SEvent → Bool
  | .message_stop => true
  | _ => false

/-- Whether an event is one of the three content-block events. -/
def isBlockEvent : SEvent → Bool
  | .content_block_start _ _ => true
  | .content_block_delta _ _ => true
  | .content_block_stop _ => true
  | _ => false

/-- Walks an event list tracking whether a block is open; fails (none)
when a block starts while one is open or stops while none is open.
Success starting from the closed state is exactly the at-most-one-open
discipline. -/
def blockCheck : Bool → List SEvent → Option Bool
  | o, [] => some o
  | o, e :: es =>
    if isStartEv e then (if o then none else blockCheck true es)
    else if isStopEv e then (if o then blockCheck false es else none)
    else blockCheck o es

/-- The block index carried by an event, when it carries one. -/
def evIndex? : SEvent → Option Nat
  | .content_block_start i _ => some i
  | .content_block_delta i _ => some i
  | .content_block_stop i => some i
  | _ => none

/-- Walks an event list checking that carried indices never decrease,
starting from the lower bound lo; returns the last index seen. -/
def idxRun : Nat → List SEvent → Option Nat
  | lo, [] => some lo
  | lo, e :: es =>
    match evIndex? e with
    | none => idxRun lo es
    | some i => if lo ≤ i then idxRun i es else none

/-- The index of a content_block_start event. -/
def startIdx? : SEvent → Option Nat
  | .content_block_start i _ => some i
  | _ => none

/-- Checks that each content_block_start index is the previous start
index plus one (the first start is unconstrained). -/
def consecStarts : Option Nat → List SEvent → Bool
  | _, [] => true
  | prev, e :: es =>
    match startIdx? e with
    | none => consecStarts prev es
    | some i =>
      match prev with
      | none => consecStarts (some i) es
      | some p => (i == p + 1) && consecStarts (some i) es

/-- The last content_block_start index in an event list, seeded with
the last one before it. -/
def lastStartIdx : Option Nat → List SEvent → Option Nat
  | prev, [] => prev
  | prev, e :: es =>
    match startIdx? e with
    | none => lastStartIdx prev es
    | some i => lastStartIdx (some i) es

/-- The index of the last emitted content_block_start, recovered from
the state: it is the current index while a block is open, and no start
has been emitted yet when none is. -/
def lastOf (st : SState) : Option Nat :=
  if flagsOf st then some st.content_block_index else none

/-- The state invariant of the streaming loop: before the first block
the index is 0; at most one of the three flags is set; a current tool
id exists only in tool_use mode. -/
def goodSt (st : SState) : Bool :=
  (flagsOf st || st.content_block_index == 0) &&
  (!(st.is_tool_use && st.has_started_text_block)) &&
  (!(st.is_tool_use && st.has_started_thinking_block)) &&
  (!(st.has_started_text_block && st.has_started_thinking_block)) &&
  (st.current_tool_call_id.isNone || st.is_tool_use)

/-- The shape required of the first content_block_start of a stream: a
tool_use block opens at index 1, a text or thinking block at index 0. -/
def startShapeOk : SEvent → Bool
  | .content_block_start i (CBlock.tool_use _ _) => i == 1
  | .content_block_start i _ => i == 0
  | _ => false

/-- The first content_block_start of an event list, if any, has the
required shape. -/
def firstStartOk (evs : List SEvent) : Bool :=
  match evs.find? isStartEv with
  | none => true
  | some e => startShapeOk e

/-- Everything one dispatch step of the streaming loop preserves: the
state invariant, the open-block discipline, index monotonicity,
consecutive start indices, only block events, and the first-start
shape when no block was ever opened. -/
def StepOk (st st2 : SState) (evs : List SEvent) : Prop :=
  goodSt st2 = true ∧
  blockCheck (flagsOf st) evs = some (flagsOf st2) ∧
  idxRun st.content_block_index evs = some st2.content_block_index ∧
  consecStarts (lastOf st) evs = true ∧
  lastStartIdx (lastOf st) evs = lastOf st2 ∧
  evs.all isBlockEvent = true ∧
  (flagsOf st = false → firstStartOk evs = true)

theorem blockCheck_append (xs ys : List SEvent) (o : Bool) :
    blockCheck o (xs ++ ys) = (blockCheck o xs).bind (fun o2 => blockCheck o2 ys) := by
  induction xs generalizing o with
  | nil => simp [blockCheck]
  | cons e es ih =>
    simp only [List.cons_append, blockCheck]
    cases hs : isStartEv e with
    | true =>
      cases o with
      | true => simp
      | false => simp [ih]
    | false =>
      cases hp : isStopEv e with
      | true =>
        cases o with
        | true => simp [ih]
        | false => simp
      | false => simp [ih]

theorem idxRun_append (xs ys : List SEvent) (lo : Nat) :
    idxRun lo (xs ++ ys) = (idxRun lo xs).bind (fun m => idxRun m ys) := by
  induction xs generalizing lo with
  | nil => simp [idxRun]
  | cons e es ih =>
    simp only [List.cons_append, idxRun]
    cases evIndex? e with
    | none => exact ih lo
    | some i =>
      by_cases hlo : lo ≤ i
      · simp [hlo, ih]
      · simp [hlo]

theorem lastStartIdx_append (xs ys : List SEvent) (prev : Option Nat) :
    lastStartIdx prev (xs ++ ys) = lastStartIdx (lastStartIdx prev xs) ys := by
  induction xs generalizing prev with
  | nil => simp [lastStartIdx]
  | cons e es ih =>
    simp only [List.cons_append, lastStartIdx]
    cases startIdx? e with
    | none => exact ih prev
    | some i => exact ih (some i)

theorem consecStarts_append (xs ys : List SEvent) (prev : Option Nat) :
    consecStarts prev (xs ++ ys) =
      (consecStarts prev xs && consecStarts (lastStartIdx prev xs) ys) := by
  induction xs generalizing prev with
  | nil => simp [consecStarts, lastStartIdx]
  | cons e es ih =>
    simp only [List.cons_append, consecStarts, lastStartIdx]
    cases startIdx? e with
    | none => exact ih prev
    | some i =>
      cases prev with
      | none => exact ih (some i)
      | some p =>
        by_cases hp : (i == p + 1) = true
        · simp [hp, ih]
        · simp [hp]

theorem blockCheck_no_start_false {evs : List SEvent} {b : Bool}
    (h : blockCheck false evs = some b) (hns : evs.find? isStartEv = none) : b = false := by
  induction evs with
  | nil =>
    have h2 : (some false : Option Bool) = some b := h
    cases h2
    rfl
  | cons e es ih =>
    rw [List.find?] at hns
    cases hse : isStartEv e with
    | true => rw [hse] at hns; cases hns
    | false =>
      rw [hse] at hns
      rw [blockCheck, hse] at h
      cases hp : isStopEv e with
      | true =>
        rw [hp] at h
        have h2 : (none : Option Bool) = some b := h
        cases h2
      | false =>
        rw [hp] at h
        exact ih h hns

theorem StepOk.nil {st : SState} (h : goodSt st = true) : StepOk st st [] := by
  refine ⟨h, rfl, rfl, rfl, rfl, rfl, fun _ => rfl⟩

theorem StepOk.trans {st st1 st2 : SState} {evs1 evs2 : List SEvent}
    (h1 : StepOk st st1 evs1) (h2 : StepOk st1 st2 evs2) :
    StepOk st st2 (evs1 ++ evs2) := by
  obtain ⟨g1, b1, i1, c1, l1, a1, f1⟩ := h1
  obtain ⟨g2, b2, i2, c2, l2, a2, f2⟩ := h2
  refine ⟨g2, ?_, ?_, ?_, ?_, ?_, ?_⟩
  · rw [blockCheck_append, b1]
    exact b2
  · rw [idxRun_append, i1]
    exact i2
  · rw [consecStarts_append, c1, l1, c2]
    rfl
  · rw [lastStartIdx_append, l1, l2]
  · rw [List.all_append, a1, a2]
    rfl
  · intro hf
    cases hfind : evs1.find? isStartEv with
    | some e =>
      have hh := f1 hf
      rw [firstStartOk, hfind] at hh
      rw [firstStartOk, List.find?_append, hfind]
      exact hh
    | none =>
      have hb1 : flagsOf st1 = false := by
        rw [hf] at b1
        exact blockCheck_no_start_false b1 hfind
      have hh := f2 hb1
      rw [firstStartOk] at hh
      rw [firstStartOk, List.find?_append, hfind]
      exact hh

theorem StepOk.deltaOnly {st : SState} (j : List (String × String)) (d : BDelta)
    (h : goodSt st = true) :
    StepOk st { st with tool_call_json := j }
      [SEvent.content_block_delta st.content_block_index d] := by
  refine ⟨h, rfl, ?_, rfl, rfl, rfl, fun _ => rfl⟩
  simp [idxRun, evIndex?]

theorem StepOk.openTool {st : SState} (tid : String) (nm : Option String)
    (j : List (String × String)) (h : goodSt st = true) :
    StepOk st
      { st with is_tool_use := true, has_started_text_block := false,
                has_started_thinking_block := false, current_tool_call_id := some tid,
                content_block_index := st.content_block_index + 1, tool_call_json := j }
      ((if flagsOf st
        then [SEvent.content_block_stop st.content_block_index] else []) ++
       [SEvent.content_block_start (st.content_block_index + 1) (CBlock.tool_use tid nm)]) := by
  unfold StepOk
  cases hflags : flagsOf st with
  | true =>
    refine ⟨?_, ?_, ?_, ?_, ?_, ?_, ?_⟩
    · simp [goodSt, flagsOf]
    · simp [blockCheck, isStartEv, isStopEv, flagsOf]
    · simp [idxRun, evIndex?, Nat.le_succ]
    · have hlast : lastOf st = some st.content_block_index := by
        rw [lastOf, hflags]
        rfl
      rw [hlast]
      simp [consecStarts, startIdx?]
    · simp [lastStartIdx, startIdx?, lastOf, flagsOf, hflags]
    · simp [isBlockEvent]
    · intro hf
      cases hf
  | false =>
    have hidx : st.content_block_index = 0 := by
      rw [goodSt, hflags] at h
      simp only [Bool.false_or, Bool.and_eq_true, beq_iff_eq] at h
      exact h.1.1.1.1
    refine ⟨?_, ?_, ?_, ?_, ?_, ?_, ?_⟩
    · simp [goodSt, flagsOf]
    · simp [blockCheck, isStartEv, isStopEv, flagsOf]
    · simp [idxRun, evIndex?, Nat.le_succ]
    · have hlast : lastOf st = none := by
        rw [lastOf, hflags]
        rfl
      rw [hlast]
      simp [consecStarts, startIdx?]
    · simp [lastStartIdx, startIdx?, lastOf, flagsOf, hflags]
    · simp [isBlockEvent]
    · intro _
      simp [firstStartOk, List.find?, isStartEv, startShapeOk, hidx]

theorem bool_and_false_right {a b : Bool} (h : (a && b) = false) (ha : a = true) : b = false := by
  cases b with
  | false => rfl
  | true => rw [ha] at h; cases h

theorem goodSt_parts {st : SState} (h : goodSt st = true) :
    (flagsOf st || st.content_block_index == 0) = true ∧
    (st.is_tool_use && st.has_started_text_block) = false ∧
    (st.is_tool_use && st.has_started_thinking_block) = false ∧
    (st.has_started_text_block && st.has_started_thinking_block) = false ∧
    (st.current_tool_call_id.isNone || st.is_tool_use) = true := by
  rw [goodSt] at h
  simp only [Bool.and_eq_true, Bool.not_eq_true'] at h
  exact ⟨h.1.1.1.1, h.1.1.1.2, h.1.1.2, h.1.2, h.2⟩

theorem toolCallOpen_ok (st : SState) (tc : TCDelta) (h : goodSt st = true) :
    StepOk st (toolCallOpen st tc).1 (toolCallOpen st tc).2 := by
  rw [toolCallOpen]
  split
  · split
    · exact StepOk.openTool _ _ _ h
    · exact StepOk.nil h
  · exact StepOk.nil h

theorem toolCallArgs_ok (st : SState) (tc : TCDelta) (h : goodSt st = true) :
    StepOk st (toolCallArgs st tc).1 (toolCallArgs st tc).2 := by
  rw [toolCallArgs]
  split
  · split
    · split
      · exact StepOk.deltaOnly _ _ h
      · exact StepOk.nil h
    · exact StepOk.nil h
  · exact StepOk.nil h

theorem processToolCall_ok (st : SState) (tc : TCDelta) (h : goodSt st = true) :
    StepOk st (processToolCall st tc).1 (processToolCall st tc).2 := by
  rw [processToolCall]
  have h1 := toolCallOpen_ok st tc h
  have h2 := toolCallArgs_ok (toolCallOpen st tc).1 tc h1.1
  exact StepOk.trans h1 h2

theorem processToolCalls_ok (tcs : List TCDelta) : ∀ st : SState, goodSt st = true →
    StepOk st (processToolCalls st tcs).1 (processToolCalls st tcs).2 := by
  induction tcs with
  | nil =>
    intro st h
    exact StepOk.nil h
  | cons tc rest ih =>
    intro st h
    rw [processToolCalls]
    dsimp only
    have h1 := processToolCall_ok st tc h
    have h2 := ih (processToolCall st tc).1 h1.1
    exact StepOk.trans h1 h2

theorem bool_and_false_left {a b : Bool} (h : (a && b) = false) (hb : b = true) : a = false := by
  cases a with
  | false => rfl
  | true => rw [hb] at h; cases h

theorem opt_isNone_eq_none {α : Type} {o : Option α} (h : o.isNone = true) : o = none := by
  cases o with
  | none => rfl
  | some v => cases h

theorem processDelta_ok (st : SState) (delta : SDelta) (h : goodSt st = true) :
    StepOk st (processDelta st delta).1 (processDelta st delta).2 := by
  obtain ⟨p1, p2, p3, p4, p5⟩ := goodSt_parts h
  rw [processDelta]
  split
  · exact processToolCalls_ok _ st h
  · split
    · dsimp only
      cases hc : (st.is_tool_use || st.has_started_text_block) with
      | true =>
        rcases Bool.or_eq_true_iff.mp hc with h1 | h1
        · have htext : st.has_started_text_block = false := bool_and_false_right p2 h1
          have hth : st.has_started_thinking_block = false := bool_and_false_right p3 h1
          refine ⟨?_, ?_, ?_, ?_, ?_, ?_, ?_⟩ <;>
            simp [goodSt, flagsOf, lastOf, blockCheck, idxRun, consecStarts, lastStartIdx,
              evIndex?, startIdx?, isStartEv, isStopEv, isBlockEvent, firstStartOk,
              startShapeOk, List.find?, Nat.le_succ, h1, htext, hth]
        · have hitu : st.is_tool_use = false := bool_and_false_left p2 h1
          have hth : st.has_started_thinking_block = false := bool_and_false_right p4 h1
          refine ⟨?_, ?_, ?_, ?_, ?_, ?_, ?_⟩ <;>
            simp [goodSt, flagsOf, lastOf, blockCheck, idxRun, consecStarts, lastStartIdx,
              evIndex?, startIdx?, isStartEv, isStopEv, isBlockEvent, firstStartOk,
              startShapeOk, List.find?, Nat.le_succ, h1, hitu, hth]
      | false =>
        obtain ⟨hitu, htext⟩ := Bool.or_eq_false_iff.mp hc
        have hcur : st.current_tool_call_id = none := by
          rcases Bool.or_eq_true_iff.mp p5 with h2 | h2
          · exact opt_isNone_eq_none h2
          · rw [h2] at hitu; cases hitu
        cases hth : st.has_started_thinking_block with
        | true =>
          refine ⟨?_, ?_, ?_, ?_, ?_, ?_, ?_⟩ <;>
            simp [goodSt, flagsOf, lastOf, blockCheck, idxRun, consecStarts, lastStartIdx,
              evIndex?, startIdx?, isStartEv, isStopEv, isBlockEvent, firstStartOk,
              startShapeOk, List.find?, Nat.le_succ, hitu, htext, hth, hcur]
        | false =>
          have hidx : st.content_block_index = 0 := by
            rw [flagsOf, hitu, htext, hth] at p1
            simpa using p1
          refine ⟨?_, ?_, ?_, ?_, ?_, ?_, ?_⟩ <;>
            simp [goodSt, flagsOf, lastOf, blockCheck, idxRun, consecStarts, lastStartIdx,
              evIndex?, startIdx?, isStartEv, isStopEv, isBlockEvent, firstStartOk,
              startShapeOk, List.find?, Nat.le_succ, hitu, htext, hth, hcur, hidx]
    · split
      · dsimp only
        cases hc : (st.is_tool_use || st.has_started_thinking_block) with
        | true =>
          rcases Bool.or_eq_true_iff.mp hc with h1 | h1
          · have htext : st.has_started_text_block = false := bool_and_false_right p2 h1
            have hth : st.has_started_thinking_block = false := bool_and_false_right p3 h1
            refine ⟨?_, ?_, ?_, ?_, ?_, ?_, ?_⟩ <;>
              simp [goodSt, flagsOf, lastOf, blockCheck, idxRun, consecStarts, lastStartIdx,
                evIndex?, startIdx?, isStartEv, isStopEv, isBlockEvent, firstStartOk,
                startShapeOk, List.find?, Nat.le_succ, h1, htext, hth]
          · have hitu : st.is_tool_use = false := bool_and_false_left p3 h1
            have htext : st.has_started_text_block = false := bool_and_false_left p4 h1
            refine ⟨?_, ?_, ?_, ?_, ?_, ?_, ?_⟩ <;>
              simp [goodSt, flagsOf, lastOf, blockCheck, idxRun, consecStarts, lastStartIdx,
                evIndex?, startIdx?, isStartEv, isStopEv, isBlockEvent, firstStartOk,
                startShapeOk, List.find?, Nat.le_succ, h1, hitu, htext]
        | false =>
          obtain ⟨hitu, hth⟩ := Bool.or_eq_false_iff.mp hc
          have hcur : st.current_tool_call_id = none := by
            rcases Bool.or_eq_true_iff.mp p5 with h2 | h2
            · exact opt_isNone_eq_none h2
            · rw [h2] at hitu; cases hitu
          cases htext : st.has_started_text_block with
          | true =>
            refine ⟨?_, ?_, ?_, ?_, ?_, ?_, ?_⟩ <;>
              simp [goodSt, flagsOf, lastOf, blockCheck, idxRun, consecStarts, lastStartIdx,
                evIndex?, startIdx?, isStartEv, isStopEv, isBlockEvent, firstStartOk,
                startShapeOk, List.find?, Nat.le_succ, hitu, htext, hth, hcur]
          | false =>
            have hidx : st.content_block_index = 0 := by
              rw [flagsOf, hitu, htext, hth] at p1
              simpa using p1
            refine ⟨?_, ?_, ?_, ?_, ?_, ?_, ?_⟩ <;>
              simp [goodSt, flagsOf, lastOf, blockCheck, idxRun, consecStarts, lastStartIdx,
                evIndex?, startIdx?, isStartEv, isStopEv, isBlockEvent, firstStartOk,
                startShapeOk, List.find?, Nat.le_succ, hitu, htext, hth, hcur, hidx]
      · exact StepOk.nil h

theorem processLine_ok (st : SState) (l : SLine) (h : goodSt st = true) :
    StepOk st (processLine st l).1 (processLine st l).2 := by
  cases l with
  | other => exact StepOk.nil h
  | done => exact StepOk.nil h
  | invalid => exact StepOk.nil h
  | data parsed =>
    rw [processLine]
    cases hu : parsed.usage with
    | none =>
      dsimp only
      cases hch : parsed.choices.head? with
      | none => exact StepOk.nil h
      | some choice =>
        dsimp only
        cases hd : choice.delta with
        | none => exact StepOk.nil h
        | some delta => exact processDelta_ok st delta h
    | some u =>
      dsimp only
      have h1 : goodSt { st with usage := some u } = true := h
      cases hch : parsed.choices.head? with
      | none => exact StepOk.nil h1
      | some choice =>
        dsimp only
        cases hd : choice.delta with
        | none => exact StepOk.nil h1
        | some delta => exact processDelta_ok { st with usage := some u } delta h1

theorem processLines_ok (ls : List SLine) : ∀ st : SState, goodSt st = true →
    StepOk st (processLines st ls).1 (processLines st ls).2 := by
  induction ls with
  | nil =>
    intro st h
    exact StepOk.nil h
  | cons l rest ih =>
    intro st h
    rw [processLines]
    dsimp only
    have h1 := processLine_ok st l h
    exact StepOk.trans h1 (ih (processLine st l).1 h1.1)

theorem blockEvent_not_msg {e : SEvent} (h : isBlockEvent e = true) :
    (!isMsgStart e && !isMsgStop e) = true := by
  cases e <;> simp [isBlockEvent, isMsgStart, isMsgStop] at *

theorem all_not_msg {l : List SEvent} (h : l.all isBlockEvent = true) :
    l.all (fun e => !isMsgStart e && !isMsgStop e) = true := by
  induction l with
  | nil => rfl
  | cons e es ih =>
    rw [List.all_cons] at h ⊢
    simp only [Bool.and_eq_true] at h ⊢
    exact ⟨by simpa using blockEvent_not_msg h.1, ih h.2⟩

theorem countP_not_of_all {l : List SEvent}
    (h : l.all (fun e => !isMsgStart e && !isMsgStop e) = true) :
    l.countP isMsgStart = 0 ∧ l.countP isMsgStop = 0 := by
  induction l with
  | nil => exact ⟨rfl, rfl⟩
  | cons e es ih =>
    rw [List.all_cons] at h
    simp only [Bool.and_eq_true, Bool.not_eq_true'] at h
    obtain ⟨⟨h1, h2⟩, h3⟩ := h
    obtain ⟨ih1, ih2⟩ := ih (by simpa using h3)
    rw [List.countP_cons, List.countP_cons]
    simp [h1, h2, ih1, ih2]

/-- Claim C9: every translated stream is exactly one message_start,
then only content-block events and the message_delta (none of which is
a message_start or message_stop, and which respect the open-close
discipline of blocks starting and ending closed with never two open),
then exactly one message_stop. -/
theorem c9_stream_bracketing (model : String) (input_tokens : Int) (lines : List SLine) :
    ∃ mid, stream_openai_to_anthropic model input_tokens lines =
        SEvent.message_start model input_tokens :: (mid ++ [SEvent.message_stop]) ∧
      mid.all (fun e => !isMsgStart e && !isMsgStop e) = true ∧
      blockCheck false mid = some false ∧
      (stream_openai_to_anthropic model input_tokens lines).countP isMsgStart = 1 ∧
      (stream_openai_to_anthropic model input_tokens lines).countP isMsgStop = 1 := by
  have hS := processLines_ok lines {} (by decide)
  obtain ⟨hg, hb, hi, hc, hl, ha, hf⟩ := hS
  have hbodyall : (processLines {} lines).2.all (fun e => !isMsgStart e && !isMsgStop e) = true :=
    all_not_msg ha
  obtain ⟨hz1, hz2⟩ := countP_not_of_all hbodyall
  rw [stream_openai_to_anthropic]
  cases hflags : flagsOf (processLines {} lines).1 with
  | true =>
    have hb2 : blockCheck false (processLines {} lines).2 = some true := by
      have hb3 : blockCheck false (processLines {} lines).2 =
          some (flagsOf (processLines {} lines).1) := hb
      rw [hflags] at hb3
      exact hb3
    refine ⟨(processLines {} lines).2 ++
        ([SEvent.content_block_stop (processLines {} lines).1.content_block_index] ++
         [SEvent.message_delta
           (if (processLines {} lines).1.is_tool_use then "tool_use" else "end_turn")
           (((processLines {} lines).1.usage.getD {}).completion_tokens.getD 0)]),
      ?_, ?_, ?_, ?_, ?_⟩
    · simp
    · rw [List.all_append, hbodyall]
      rfl
    · rw [blockCheck_append, hb2]
      rfl
    · simp [List.countP_cons, List.countP_append, isMsgStart, hz1, isMsgStop]
    · simp [List.countP_cons, List.countP_append, isMsgStop, hz2, isMsgStart]
  | false =>
    have hb2 : blockCheck false (processLines {} lines).2 = some false := by
      have hb3 : blockCheck false (processLines {} lines).2 =
          some (flagsOf (processLines {} lines).1) := hb
      rw [hflags] at hb3
      exact hb3
    refine ⟨(processLines {} lines).2 ++
        ([] ++
         [SEvent.message_delta
           (if (processLines {} lines).1.is_tool_use then "tool_use" else "end_turn")
           (((processLines {} lines).1.usage.getD {}).completion_tokens.getD 0)]),
      ?_, ?_, ?_, ?_, ?_⟩
    · simp
    · rw [List.all_append, hbodyall]
      rfl
    · rw [blockCheck_append, hb2]
      rfl
    · simp [List.countP_cons, List.countP_append, isMsgStart, hz1, isMsgStop]
    · simp [List.countP_cons, List.countP_append, isMsgStop, hz2, isMsgStart]

/-- The tool-call entry of the C2 counterexample. -/
def c2tc : TCDelta := { id := some "call_1", function := some { name := some "f" } }

/-- The single upstream chunk of the C2 counterexample: the very first
delta is a tool-call delta with a fresh id. -/
def c2line : SLine :=
  SLine.data { choices := [{ delta := some { tool_calls := some [c2tc] } }] }

/-- Claim C2 (counterexample): when the first delta of a stream is a
tool-call delta with a fresh id, the first (and only)
content_block_start emitted carries index 1, not 0: the tool-call
branch increments the index unconditionally before opening its block.
The claim as stated (first content_block_start has index 0, including
in this case) is false. -/
theorem c2_tool_first_block_index_one :
    (stream_openai_to_anthropic "m" 0 [c2line]).find? isStartEv =
      some (SEvent.content_block_start 1 (CBlock.tool_use "call_1" (some "f"))) ∧
    (SEvent.content_block_start 0 (CBlock.tool_use "call_1" (some "f"))) ∉
      stream_openai_to_anthropic "m" 0 [c2line] := by
  constructor
  · decide
  · decide

/-- Claim C2 (amended): the content-block index carried by emitted
events is monotonically non-decreasing starting from lower bound 0;
consecutive content_block_start events carry consecutive indices; and
the first content_block_start has index 0 when it opens a text or
thinking block but index 1 when it opens a tool_use block (opening a
tool_use block always increments the index, even with no previous
block). -/
theorem c2_stream_index_monotone (model : String) (input_tokens : Int) (lines : List SLine) :
    (∃ n, idxRun 0 (stream_openai_to_anthropic model input_tokens lines) = some n) ∧
    consecStarts none (stream_openai_to_anthropic model input_tokens lines) = true ∧
    firstStartOk (stream_openai_to_anthropic model input_tokens lines) = true := by
  have hS := processLines_ok lines {} (by decide)
  obtain ⟨hg, hb, hi, hc, hl, ha, hf⟩ := hS
  have hi2 : idxRun 0 (processLines {} lines).2 =
      some (processLines {} lines).1.content_block_index := hi
  have hc2 : consecStarts none (processLines {} lines).2 = true := hc
  have hl2 : lastStartIdx none (processLines {} lines).2 =
      lastOf (processLines {} lines).1 := hl
  have hf2 : firstStartOk (processLines {} lines).2 = true := hf rfl
  rw [stream_openai_to_anthropic]
  refine ⟨⟨(processLines {} lines).1.content_block_index, ?_⟩, ?_, ?_⟩
  · rw [idxRun]
    dsimp only [evIndex?]
    rw [List.append_assoc, idxRun_append, hi2]
    cases hflags : flagsOf (processLines {} lines).1 with
    | true => simp [idxRun, evIndex?]
    | false => simp [idxRun, evIndex?]
  · rw [consecStarts]
    dsimp only [startIdx?]
    rw [List.append_assoc, consecStarts_append, hc2, hl2]
    cases hflags : flagsOf (processLines {} lines).1 with
    | true => simp [consecStarts, startIdx?]
    | false => simp [consecStarts, startIdx?]
  · rw [firstStartOk, List.find?]
    have hns : isStartEv (SEvent.message_start model input_tokens) = false := rfl
    rw [hns]
    rw [List.append_assoc, List.find?_append]
    cases hfind : (processLines {} lines).2.find? isStartEv with
    | some e =>
      rw [firstStartOk, hfind] at hf2
      simpa [Option.or] using hf2
    | none =>
      cases hflags : flagsOf (processLines {} lines).1 with
      | true => simp [Option.or, List.find?, isStartEv]
      | false => simp [Option.or, List.find?, isStartEv]

/-! ### C1: the tool-pairing invariant of the validator -/

/-- The pairing discipline of a validated message list: a tool turn only
appears inside the run immediately following an assistant turn whose
tool_calls match it, and every tool_calls entry of such an assistant
turn is matched by a tool turn inside that run. -/
inductive Paired : List OMsg → Prop where
  | nil : Paired []
  | other (m : OMsg) (rest : List OMsg) :
      m.role ≠ some "tool" →
      (m.role = some "assistant" → m.tool_calls.getD [] = []) →
      Paired rest → Paired (m :: rest)
  | asst (m : OMsg) (run rest : List OMsg) :
      m.role = some "assistant" →
      (∀ t ∈ run, t.role = some "tool") →
      (∀ tcall ∈ m.tool_calls.getD [], ∃ t ∈ run, t.tool_call_id = tcall.id) →
      (∀ t ∈ run, ∃ tcall ∈ m.tool_calls.getD [], tcall.id = t.tool_call_id) →
      Paired rest → Paired (m :: (run ++ rest))

/-- The backward scan over the reversed scanned part finds no assistant
turn with truthy tool_calls: under this condition every tool turn is
dropped by the validator. -/
def noPrevMatch (pre : List OMsg) : Prop :=
  ∀ prev, (pre.dropWhile isToolRole).head? = some prev →
    (prev.role == some "assistant" && msgToolCallsTruthy prev) = false

theorem paired_head_not_tool {l : List OMsg} (hp : Paired l) :
    ∀ t, l.head? = some t → t.role ≠ some "tool" := by
  cases hp with
  | nil => intro t ht; cases ht
  | other m rest hnt _ _ =>
    intro t ht
    injection ht with h
    exact h ▸ hnt
  | asst m run rest hrole _ _ _ _ =>
    intro t ht
    injection ht with h
    subst h
    rw [hrole]
    intro hc
    injection hc with hc2
    exact absurd hc2 (by decide)

theorem toolCalls_getD_nil {m : OMsg} (h : msgToolCallsTruthy m = false) :
    m.tool_calls.getD [] = [] := by
  cases htc : m.tool_calls with
  | none => rfl
  | some l =>
    rw [msgToolCallsTruthy, htc, listTruthy] at h
    cases l with
    | nil => rfl
    | cons a l2 => simp [List.isEmpty] at h

theorem isToolRole_false_iff {m : OMsg} : isToolRole m = false ↔ m.role ≠ some "tool" := by
  rw [isToolRole]
  simp

theorem isToolRole_true_iff {m : OMsg} : isToolRole m = true ↔ m.role = some "tool" := by
  rw [isToolRole]
  simp

theorem dropWhile_all_append {α : Type} (p : α → Bool) (y : α) (ys : List α) :
    ∀ xs : List α, (∀ x ∈ xs, p x = true) → p y = false →
      (xs ++ y :: ys).dropWhile p = y :: ys := by
  intro xs
  induction xs with
  | nil => intro _ hy; simp [List.dropWhile_cons, hy]
  | cons x xs2 ih =>
    intro hall hy
    rw [List.cons_append, List.dropWhile_cons]
    rw [hall x (List.mem_cons_self x xs2)]
    exact ih (fun a ha => hall a (List.mem_cons_of_mem x ha)) hy

theorem head_dropWhile_false {α : Type} (p : α → Bool) :
    ∀ (l : List α) (t : α), (l.dropWhile p).head? = some t → p t = false := by
  intro l
  induction l with
  | nil => intro t ht; cases ht
  | cons x xs ih =>
    intro t ht
    rw [List.dropWhile_cons] at ht
    cases hx : p x with
    | true => rw [hx, if_pos rfl] at ht; exact ih t ht
    | false =>
      rw [hx, if_neg Bool.false_ne_true] at ht
      simp only [List.head?_cons, Option.some.injEq] at ht
      exact ht ▸ hx

theorem contains_map_iff (run : List OMsg) (x : Option String) :
    (run.map (fun t => t.tool_call_id)).contains x = true ↔
      ∃ t ∈ run, t.tool_call_id = x := by
  constructor
  · intro h
    obtain ⟨t, ht, hx⟩ := List.mem_map.mp (List.elem_iff.mp h)
    exact ⟨t, ht, hx⟩
  · rintro ⟨t, ht, hx⟩
    exact List.elem_iff.mpr (List.mem_map.mpr ⟨t, ht, hx⟩)

theorem filter_calls_nil_iff (calls : List OutToolCall) (run : List OMsg) :
    calls.filter (fun tcall => (run.map (fun t => t.tool_call_id)).contains tcall.id) = [] ↔
    run.filter (fun t => calls.any (fun tcall => tcall.id == t.tool_call_id)) = [] := by
  rw [List.filter_eq_nil_iff, List.filter_eq_nil_iff]
  constructor
  · intro h t ht hany
    obtain ⟨tc, htc, hid⟩ := List.any_eq_true.mp hany
    exact h tc htc (contains_map_iff run tc.id |>.mpr ⟨t, ht, (eq_of_beq hid).symm⟩)
  · intro h tc htc hcont
    obtain ⟨t, ht, hx⟩ := (contains_map_iff run tc.id).mp hcont
    exact h t ht (List.any_eq_true.mpr ⟨tc, htc, beq_of_eq hx.symm⟩)

theorem validateAux_run (m : OMsg) (pre0 : List OMsg)
    (hrole : m.role = some "assistant") (htruthy : msgToolCallsTruthy m = true) :
    ∀ run : List OMsg, (∀ t ∈ run, t.role = some "tool") →
    ∀ toolpre after : List OMsg, (∀ t ∈ toolpre, t.role = some "tool") →
    validateAux (toolpre ++ m :: pre0) (run ++ after) =
      run.filter (fun t => (m.tool_calls.getD []).any (fun tcall => tcall.id == t.tool_call_id)) ++
      validateAux (run.reverse ++ (toolpre ++ m :: pre0)) after := by
  intro run
  induction run with
  | nil => intro _ toolpre after _; simp
  | cons t rest ih =>
    intro hrun toolpre after htoolpre
    have htool : t.role = some "tool" := hrun t (List.mem_cons_self t rest)
    have hdw : ((toolpre ++ m :: pre0).dropWhile isToolRole) = m :: pre0 :=
      dropWhile_all_append isToolRole m pre0 toolpre
        (fun x hx => isToolRole_true_iff.mpr (htoolpre x hx))
        (by rw [isToolRole, hrole]; decide)
    have hstep : validateStep (toolpre ++ m :: pre0) t (rest ++ after) =
        (if (m.tool_calls.getD []).any (fun tcall => tcall.id == t.tool_call_id)
          then some t else none) := by
      rw [validateStep]
      have hA : (t.role == some "assistant") = false := by rw [htool]; decide
      rw [hA, Bool.false_and, if_neg Bool.false_ne_true,
          isToolRole_true_iff.mpr htool, if_pos rfl, hdw]
      simp only [List.head?_cons]
      simp [hrole, htruthy]
    have ih2 := ih (fun a ha => hrun a (List.mem_cons_of_mem t ha)) (t :: toolpre) after
      (fun a ha => by
        rcases List.mem_cons.mp ha with h | h
        · exact h ▸ htool
        · exact htoolpre a h)
    rw [List.cons_append] at ih2
    rw [List.cons_append, validateAux, hstep]
    cases hmatch : (m.tool_calls.getD []).any (fun tcall => tcall.id == t.tool_call_id) with
    | true =>
      rw [if_pos rfl]
      dsimp only
      rw [ih2]
      simp [List.filter_cons, hmatch, List.append_assoc]
    | false =>
      rw [if_neg Bool.false_ne_true]
      dsimp only
      rw [ih2]
      simp [List.filter_cons, hmatch, List.append_assoc]

theorem validateAux_paired :
    ∀ (n : Nat) (l : List OMsg), l.length ≤ n → ∀ pre : List OMsg,
      (noPrevMatch pre ∨ ∀ t, l.head? = some t → isToolRole t = false) →
      Paired (validateAux pre l) := by
  intro n
  induction n with
  | zero =>
    intro l hl pre _
    have hnil : l = [] := List.eq_nil_of_length_eq_zero (Nat.le_zero.mp hl)
    subst hnil
    exact Paired.nil
  | succ n ih =>
    intro l hl pre hinv
    cases l with
    | nil => exact Paired.nil
    | cons m suf =>
      have hsuf : suf.length ≤ n := Nat.succ_le_succ_iff.mp (by simpa using hl)
      rw [validateAux]
      cases h1 : (m.role == some "assistant" && msgToolCallsTruthy m) with
      | false =>
        cases h2 : isToolRole m with
        | true =>
          have hnp : noPrevMatch pre := by
            rcases hinv with h | h
            · exact h
            · exact absurd h2 (by rw [h m rfl]; decide)
          have hstep : validateStep pre m suf = none := by
            rw [validateStep, if_neg (by rw [h1]; exact Bool.false_ne_true), if_pos h2]
            cases hh : (pre.dropWhile isToolRole).head? with
            | none => rfl
            | some prev =>
              dsimp only
              rw [hnp prev hh, Bool.false_and, if_neg Bool.false_ne_true]
          rw [hstep]
          exact ih suf hsuf (m :: pre) (Or.inl (fun prev hprev => by
            rw [List.dropWhile_cons, h2, if_pos rfl] at hprev
            exact hnp prev hprev))
        | false =>
          have hstep : validateStep pre m suf = some m := by
            rw [validateStep, if_neg (by rw [h1]; exact Bool.false_ne_true),
              if_neg (by rw [h2]; exact Bool.false_ne_true)]
          rw [hstep]
          refine Paired.other m _ (isToolRole_false_iff.mp h2) ?_
            (ih suf hsuf (m :: pre) (Or.inl ?_))
          · intro hro
            apply toolCalls_getD_nil
            have hA : (m.role == some "assistant") = true := by rw [hro]; decide
            rw [hA, Bool.true_and] at h1
            exact h1
          · intro prev hprev
            rw [List.dropWhile_cons, h2, if_neg Bool.false_ne_true] at hprev
            simp only [List.head?_cons, Option.some.injEq] at hprev
            exact hprev ▸ h1
      | true =>
        have hp : (m.role == some "assistant") = true ∧ msgToolCallsTruthy m = true := by
          rw [Bool.and_eq_true] at h1
          exact h1
        have hrole : m.role = some "assistant" := eq_of_beq hp.1
        have htruthy : msgToolCallsTruthy m = true := hp.2
        have hsplit : suf.takeWhile isToolRole ++ suf.dropWhile isToolRole = suf :=
          List.takeWhile_append_dropWhile _ _
        have hruntool : ∀ t ∈ suf.takeWhile isToolRole, t.role = some "tool" :=
          fun t ht => isToolRole_true_iff.mp (List.mem_takeWhile_imp ht)
        have hchunk := validateAux_run m pre hrole htruthy (suf.takeWhile isToolRole)
          hruntool [] (suf.dropWhile isToolRole) (fun t ht => absurd ht (List.not_mem_nil t))
        rw [List.nil_append, hsplit] at hchunk
        have hafter : Paired (validateAux ((suf.takeWhile isToolRole).reverse ++ m :: pre)
            (suf.dropWhile isToolRole)) := by
          refine ih (suf.dropWhile isToolRole)
            (le_trans (List.dropWhile_sublist _).length_le hsuf) _ (Or.inr ?_)
          intro t ht
          exact head_dropWhile_false isToolRole suf t ht
        rw [validateStep, if_pos h1]
        dsimp only
        cases hvc : (m.tool_calls.getD []).filter
            (fun tcall => ((suf.takeWhile isToolRole).map
              (fun t => t.tool_call_id)).contains tcall.id) with
        | nil =>
          have hkept : (suf.takeWhile isToolRole).filter
              (fun t => (m.tool_calls.getD []).any
                (fun tcall => tcall.id == t.tool_call_id)) = [] :=
            (filter_calls_nil_iff _ _).mp hvc
          rw [show (if ([] : List OutToolCall).isEmpty = true
              then ({ m with tool_calls := none } : OMsg)
              else { m with tool_calls := some [] }) = { m with tool_calls := none } from rfl]
          cases hcontent : msgContentTruthy { m with tool_calls := none } with
          | true =>
            rw [Bool.true_or, if_pos rfl]
            dsimp only
            rw [hchunk, hkept, List.nil_append]
            refine Paired.other _ _ ?_ (fun _ => rfl) hafter
            show m.role ≠ some "tool"
            rw [hrole]
            decide
          | false =>
            have hfalse : msgToolCallsTruthy { m with tool_calls := none } = false := rfl
            rw [hfalse, Bool.false_or, if_neg Bool.false_ne_true]
            dsimp only
            rw [hchunk, hkept, List.nil_append]
            exact hafter
        | cons c cs =>
          rw [show (if ((c :: cs) : List OutToolCall).isEmpty = true
              then ({ m with tool_calls := none } : OMsg)
              else { m with tool_calls := some (c :: cs) })
              = { m with tool_calls := some (c :: cs) } from rfl]
          have htr : msgToolCallsTruthy { m with tool_calls := some (c :: cs) } = true := rfl
          rw [htr, Bool.or_true, if_pos rfl]
          dsimp only
          rw [hchunk]
          refine Paired.asst _ _ _ (hrole) ?_ ?_ ?_ hafter
          · intro t ht
            exact hruntool t (List.mem_filter.mp ht).1
          · intro tcall htcall
            have htc2 : tcall ∈ (m.tool_calls.getD []).filter
                (fun tcall => ((suf.takeWhile isToolRole).map
                  (fun t => t.tool_call_id)).contains tcall.id) := by
              rw [hvc]; exact htcall
            obtain ⟨hmem, hcont⟩ := List.mem_filter.mp htc2
            obtain ⟨t, htm, hte⟩ := (contains_map_iff _ _).mp hcont
            refine ⟨t, List.mem_filter.mpr ⟨htm, ?_⟩, hte⟩
            exact List.any_eq_true.mpr ⟨tcall, hmem, beq_of_eq hte.symm⟩
          · intro t ht
            obtain ⟨htm, hany⟩ := List.mem_filter.mp ht
            obtain ⟨tc, htcm, hbeq⟩ := List.any_eq_true.mp hany
            refine ⟨tc, ?_, eq_of_beq hbeq⟩
            show tc ∈ (({ m with tool_calls := some (c :: cs) } : OMsg).tool_calls.getD [])
            have : tc ∈ (m.tool_calls.getD []).filter
                (fun tcall => ((suf.takeWhile isToolRole).map
                  (fun t => t.tool_call_id)).contains tcall.id) :=
              List.mem_filter.mpr ⟨htcm,
                (contains_map_iff _ _).mpr ⟨t, htm, (eq_of_beq hbeq).symm⟩⟩
            rw [hvc] at this
            exact this

theorem paired_tool_matched {out : List OMsg} (hp : Paired out) :
    ∀ pre t suf, out = pre ++ t :: suf → t.role = some "tool" →
      ∃ pre2 a mid, pre = pre2 ++ a :: mid ∧ a.role = some "assistant" ∧
        (∀ u ∈ mid, u.role = some "tool") ∧
        ∃ tcall ∈ a.tool_calls.getD [], tcall.id = t.tool_call_id := by
  induction hp with
  | nil =>
    intro pre t suf heq _
    exact absurd ((List.append_eq_nil.mp heq.symm).2) (List.cons_ne_nil t suf)
  | other m rest hnt _ _ ih =>
    intro pre t suf heq hrole
    cases pre with
    | nil =>
      rw [List.nil_append] at heq
      injection heq with he1 _
      exact absurd hrole (he1 ▸ hnt)
    | cons p pre2 =>
      rw [List.cons_append] at heq
      injection heq with he1 he2
      obtain ⟨pre3, a, mid, hdec, hasst, hmid, htc⟩ := ih pre2 t suf he2 hrole
      exact ⟨p :: pre3, a, mid, by rw [hdec, List.cons_append], hasst, hmid, htc⟩
  | asst m run rest hrolem hruntool hcond3 hcond4 hrest ih =>
    intro pre t suf heq hrole
    cases pre with
    | nil =>
      rw [List.nil_append] at heq
      injection heq with he1 _
      rw [← he1, hrolem] at hrole
      injection hrole with hc
      exact absurd hc (by decide)
    | cons p pre2 =>
      rw [List.cons_append] at heq
      injection heq with he1 he2
      rcases List.append_eq_append_iff.mp he2 with ⟨a2, ha2, hb2⟩ | ⟨c2, hc2, hd2⟩
      · obtain ⟨pre3, a, mid, hdec, hasst, hmid, htc⟩ := ih a2 t suf hb2 hrole
        refine ⟨p :: run ++ pre3, a, mid, ?_, hasst, hmid, htc⟩
        rw [ha2, hdec]
        simp [List.append_assoc]
      · cases c2 with
        | nil =>
          rw [List.nil_append] at hd2
          have : t.role ≠ some "tool" :=
            paired_head_not_tool hrest t (by rw [← hd2]; rfl)
          exact absurd hrole this
        | cons t2 c3 =>
          injection hd2 with he3 _
          subst he3
          have htmem : t ∈ run := by rw [hc2]; exact List.mem_append_right pre2 (List.mem_cons_self t c3)
          obtain ⟨tcall, htcm, htcid⟩ := hcond4 t htmem
          refine ⟨[], m, pre2, by rw [List.nil_append, he1], hrolem, ?_, tcall, htcm, htcid⟩
          intro u hu
          exact hruntool u (by rw [hc2]; exact List.mem_append_left (t :: c3) hu)

theorem paired_calls_matched {out : List OMsg} (hp : Paired out) :
    ∀ pre a suf, out = pre ++ a :: suf → a.role = some "assistant" →
      ∀ tcall ∈ a.tool_calls.getD [],
        ∃ mid t suf2, suf = mid ++ t :: suf2 ∧ (∀ u ∈ mid, u.role = some "tool") ∧
          t.role = some "tool" ∧ t.tool_call_id = tcall.id := by
  induction hp with
  | nil =>
    intro pre a suf heq _
    exact absurd ((List.append_eq_nil.mp heq.symm).2) (List.cons_ne_nil a suf)
  | other m rest hnt hcalls _ ih =>
    intro pre a suf heq hrole tcall htcall
    cases pre with
    | nil =>
      rw [List.nil_append] at heq
      injection heq with he1 _
      rw [← he1] at hrole htcall
      rw [hcalls hrole] at htcall
      exact absurd htcall (List.not_mem_nil tcall)
    | cons p pre2 =>
      rw [List.cons_append] at heq
      injection heq with _ he2
      exact ih pre2 a suf he2 hrole tcall htcall
  | asst m run rest hrolem hruntool hcond3 hcond4 hrest ih =>
    intro pre a suf heq hrole tcall htcall
    cases pre with
    | nil =>
      rw [List.nil_append] at heq
      injection heq with he1 he2
      rw [← he1] at htcall
      obtain ⟨t, htm, hte⟩ := hcond3 tcall htcall
      obtain ⟨mid, run2, hrun⟩ := List.append_of_mem htm
      refine ⟨mid, t, run2 ++ rest, ?_, ?_, hruntool t htm, hte⟩
      · rw [← he2, hrun]
        simp [List.append_assoc]
      · intro u hu
        exact hruntool u (by rw [hrun]; exact List.mem_append_left (t :: run2) hu)
    | cons p pre2 =>
      rw [List.cons_append] at heq
      injection heq with _ he2
      rcases List.append_eq_append_iff.mp he2 with ⟨a2, ha2, hb2⟩ | ⟨c2, hc2, hd2⟩
      · exact ih a2 a suf hb2 hrole tcall htcall
      · cases c2 with
        | nil =>
          rw [List.nil_append] at hd2
          exact ih [] a suf hd2.symm hrole tcall htcall
        | cons a3 c3 =>
          injection hd2 with he3 _
          have hamem : a ∈ run := by
            rw [hc2, ← he3]
            exact List.mem_append_right pre2 (List.mem_cons_self a c3)
          have : a.role = some "tool" := hruntool a hamem
          rw [hrole] at this
          injection this with hc
          exact absurd hc (by decide)

/-- Claim C1: in the output of the tool-pairing validator, every turn with
role tool is immediately preceded (ignoring intervening tool turns) by an
assistant turn whose tool_calls contains an entry whose id equals the tool
turn's tool_call_id, and every tool_calls entry on a kept assistant turn
has a matching tool turn in the contiguous run of tool turns that follows
it. -/
theorem c1_tool_pairing (messages : List OMsg) :
    (∀ pre t suf, validate_tool_calls messages = pre ++ t :: suf →
      t.role = some "tool" →
      ∃ pre2 a mid, pre = pre2 ++ a :: mid ∧ a.role = some "assistant" ∧
        (∀ u ∈ mid, u.role = some "tool") ∧
        ∃ tcall ∈ a.tool_calls.getD [], tcall.id = t.tool_call_id) ∧
    (∀ pre a suf, validate_tool_calls messages = pre ++ a :: suf →
      a.role = some "assistant" →
      ∀ tcall ∈ a.tool_calls.getD [],
        ∃ mid t suf2, suf = mid ++ t :: suf2 ∧ (∀ u ∈ mid, u.role = some "tool") ∧
          t.role = some "tool" ∧ t.tool_call_id = tcall.id) := by
  have hp : Paired (validate_tool_calls messages) := by
    rw [validate_tool_calls]
    exact validateAux_paired messages.length messages le_rfl []
      (Or.inl (fun prev h => Option.noConfusion h))
  exact ⟨paired_tool_matched hp, paired_calls_matched hp⟩

/-- An assistant turn carrying one tool call, for exercising the validator. -/
def c1msgA : OMsg :=
  { role := some "assistant", content := OContent.null,
    tool_calls := some [{ id := some "call_1", name := some "f", arguments := "\x7b\x7d" }],
    tool_call_id := none }

/-- The matching tool-result turn. -/
def c1msgT : OMsg :=
  { role := some "tool", content := OContent.str "ok",
    tool_calls := none, tool_call_id := some "call_1" }

theorem c1_tool_pairing_witness :
    ∃ pre2 a mid, ([c1msgA] : List OMsg) = pre2 ++ a :: mid ∧
      a.role = some "assistant" ∧ (∀ u ∈ mid, u.role = some "tool") ∧
      ∃ tcall ∈ a.tool_calls.getD [], tcall.id = c1msgT.tool_call_id :=
  (c1_tool_pairing [c1msgA, c1msgT]).1 [c1msgA] c1msgT [] rfl rfl
